import Mathlib

/-!
Shallow embedding of the acknowledgement buffer of the go-uspclient
repository (file `src/ack_buffer.go`), with proofs about its behaviour.

Modelling conventions:
* every operation is modelled as the whole call body executed without
  interference (sequential, quiescent semantics);
* Go `uint64` arithmetic is modelled on `Nat` with every machine operation
  reduced modulo `2 ^ 64` (`uadd` / `usub` below);
* the slice `buff` is a `List (Option DataMessage)`; a `none` entry is a
  nil pointer; indexing past the end of the slice is a Go runtime panic
  and is modelled by a dedicated `panicked` outcome;
* Go runtime faults (`seq % 0`, index out of range) are explicit outcomes,
  never silently absorbed.

The `Event` latch type lives in a file of the repository that is not among
the sources at hand (only `ack_buffer.go` and `client_test.go` are).
Modelled from the spec: an `Event` is a manual-reset boolean latch whose
`Set`/`Clear` write it, whose `IsSet` reads it, and whose `WaitFor d`
returns true iff the latch is set at return; in a quiescent wait nothing
else runs, so `WaitFor` simply returns the current boolean.  Each latch is
therefore embedded as a `Bool` field of the buffer state.
-/

namespace USP

/-- Modulus of Go uint64 arithmetic, the literal value of `2 ^ 64`. -/
def w : Nat := 18446744073709551616

/-- Value of Go `math.MaxUint64`. -/
def maxU64 : Nat := w - 1

/-- Addition of uint64 values (wraps modulo `2 ^ 64`). -/
def uadd (a b : Nat) : Nat := (a + b) % w

/-- Subtraction of uint64 values (wraps modulo `2 ^ 64`). -/
def usub (a b : Nat) : Nat := (a + w - b % w) % w

/-- Model of `protocol.DataMessage`: the payload is abstracted to a number,
`seqNum` and `ackRequested` are the two fields the buffer writes
(`SeqNum`, `AckRequested` in the Go source). -/
structure DataMessage where
  payload : Nat
  seqNum : Nat
  ackRequested : Bool
  deriving DecidableEq, Repr

/-- Model of the `AckBuffer` struct (ack_buffer.go lines 23-40).  The two
`*Event` latches are booleans (see the header comment), the slice is a list
of optional messages, the uint64 fields are naturals kept below `2 ^ 64`
by construction. -/
structure AckState where
  isRunning : Bool
  isAvailable : Bool
  buff : List (Option DataMessage)
  nextIndexFree : Nat
  firstSeqNum : Nat
  nextSeqNum : Nat
  ackEvery : Nat
  nextIndexToDeliver : Nat
  isReadyToDeliver : Bool
  deriving DecidableEq, Repr

/-- State built by `NewAckBuffer` (lines 42-60) for an effective capacity
`c` (after the `BufferCapacity == 0` defaulting to 5000).  The Go source
computes `ackEvery` as `uint64(float64(c) * 0.5)`, which equals `c / 2`
exactly for every capacity below `2 ^ 53` (the conversion to float64 is
exact there); it is embedded as `c / 2`.  The `isAvailable` latch is set
at construction, `isReadyToDeliver` starts cleared. -/
def mkInit (c : Nat) : AckState :=
  { isRunning := true
    isAvailable := true
    buff := List.replicate c none
    nextIndexFree := 0
    firstSeqNum := 1
    nextSeqNum := 1
    ackEvery := c / 2
    nextIndexToDeliver := 0
    isReadyToDeliver := false }

/-- `NewAckBuffer` including the capacity defaulting of lines 43-45. -/
def newAckBuffer (bufferCapacity : Nat) : AckState :=
  mkInit (if bufferCapacity = 0 then 5000 else bufferCapacity)

/-- `Close` (lines 62-66): sets `isRunning` to false and touches nothing
else; in particular neither latch is written. -/
def close (s : AckState) : AckState := { s with isRunning := false }

/-- Outcome of a call to `Add`.  `added` carries the new buffer state and
the stamped record; `notAdded` is the false return; `blocked` stands for
the call never returning in the quiescent semantics (timeout 0, latch
unset, still running: the code loops on a 500 ms tick); `divByZero` is the
Go runtime panic of `seq % ackEvery` with `ackEvery == 0`; `indexOOB` is
the Go runtime panic of `buff[nextIndexFree]` with a full slice. -/
inductive AddResult where
  | added : AckState → DataMessage → AddResult
  | notAdded : AddResult
  | blocked : AddResult
  | divByZero : AddResult
  | indexOOB : AddResult
  deriving DecidableEq, Repr

/-- Body of `Add` under the lock once `isAvailable` was observed set
(lines 100-112): assign `SeqNum := nextSeqNum`, bump `nextSeqNum`, stamp
`AckRequested` when `seq % ackEvery == 0` (leaving a caller-set flag
alone otherwise), store the record at `nextIndexFree`, bump it, clear
`isAvailable` when the buffer is now full, set `isReadyToDeliver`. -/
def addLocked (s : AckState) (e : DataMessage) : AddResult :=
  let seq := s.nextSeqNum
  if s.ackEvery = 0 then AddResult.divByZero
  else
    let e2 : DataMessage :=
      { e with seqNum := seq
               ackRequested := if seq % s.ackEvery = 0 then true else e.ackRequested }
    if s.nextIndexFree < s.buff.length then
      let nf2 := uadd s.nextIndexFree 1
      AddResult.added
        { s with nextSeqNum := uadd s.nextSeqNum 1
                 buff := s.buff.set s.nextIndexFree (some e2)
                 nextIndexFree := nf2
                 isAvailable := if s.buff.length ≤ nf2 then false else s.isAvailable
                 isReadyToDeliver := true } e2
    else AddResult.indexOOB

/-- `Add` (lines 68-116) in the quiescent semantics, returning the outcome
together with the number of calls made to the `OnBackPressure` hook during
the call.  `timeoutZero` selects the `timeout == 0` path of the code
(lines 86-88 and 94-96: poll the latch on a 500 ms tick, never touching
the hook); `hookCfg` says whether `OnBackPressure` is non-nil.  With a
nonzero timeout the loop body runs once in a quiescent wait: the hook
fires exactly when the latch is unset (lines 80-82), and the wait either
returns immediately (latch set) or fails at the deadline (line 83-85). -/
def add (s : AckState) (e : DataMessage) (timeoutZero hookCfg : Bool) :
    AddResult × Nat :=
  if timeoutZero then
    if s.isAvailable then (addLocked s e, 0)
    else if s.isRunning then (AddResult.blocked, 0)
    else (AddResult.notAdded, 0)
  else
    let hooks := if hookCfg && !s.isAvailable then 1 else 0
    if s.isAvailable then (addLocked s e, hooks)
    else (AddResult.notAdded, hooks)

/-- Outcome of a call to `Ack`.  The two error constructors mirror the two
`fmt.Errorf` returns of the source: `unexpectedSeq` is the message
"unexpected acked sequence number: seq" (lines 125 and 128),
`notYetDelivered` the message "acked message (seq) has not yet been
delivered (next)" (line 136).  `panicked` is the Go runtime panic of
`buff[nextIndexToDeliver]` when that index is past the end of the slice
(line 133). -/
inductive AckResult where
  | ok : AckState → AckResult
  | unexpectedSeq : Nat → AckResult
  | notYetDelivered : Nat → Nat → AckResult
  | panicked : AckResult
  deriving DecidableEq, Repr

/-- Sequence number reported in the not-yet-delivered error: the `SeqNum`
of the slot, or 0 for a nil slot (lines 132-135). -/
def slotSeq : Option DataMessage → Nat
  | some m => m.seqNum
  | none => 0

/-- Body of `Ack` under the lock (lines 122-151), with the exact uint64
arithmetic of the source:
line 124 is `seq < firstSeqNum && len(buff)-(MaxUint64-firstSeqNum) <= seq`,
line 127 is `seq >= nextSeqNum && nextSeqNum >= MaxUint64-seq`,
`indexAcked` is `seq - firstSeqNum` (uint64, may wrap), and the compaction
branch shifts slots left by `indexAcked + 1`, clears the tail from the new
`nextIndexFree`, sets the new `firstSeqNum`, raises `isAvailable`, and
clears `isReadyToDeliver` iff the new cursor reaches the new free index.
The shifted slice is written pointwise: position `j` holds the old
position `j + idx + 1` when that is in range (the shift loop of lines
139-141), is cleared when `nf2 <= j` (the clear loop of lines 143-145),
and otherwise keeps its old value. -/
def ackLocked (s : AckState) (seq : Nat) : AckResult :=
  if seq < s.firstSeqNum ∧ usub s.buff.length (usub maxU64 s.firstSeqNum) ≤ seq then
    AckResult.unexpectedSeq seq
  else if s.nextSeqNum ≤ seq ∧ usub maxU64 seq ≤ s.nextSeqNum then
    AckResult.unexpectedSeq seq
  else
    let idx := usub seq s.firstSeqNum
    if s.nextIndexToDeliver ≤ idx then
      match s.buff[s.nextIndexToDeliver]? with
      | none => AckResult.panicked
      | some slot => AckResult.notYetDelivered seq (slotSeq slot)
    else
      let nf2 := usub (usub s.nextIndexFree idx) 1
      let nd2 := usub s.nextIndexToDeliver (uadd idx 1)
      let buff2 := List.ofFn (fun j : Fin s.buff.length =>
        if nf2 ≤ (j : Nat) then none
        else if (j : Nat) + idx + 1 < s.buff.length then s.buff.getD ((j : Nat) + idx + 1) none
        else s.buff.getD (j : Nat) none)
      AckResult.ok
        { s with firstSeqNum := uadd seq 1
                 buff := buff2
                 nextIndexFree := nf2
                 isAvailable := true
                 nextIndexToDeliver := nd2
                 isReadyToDeliver := if nf2 ≤ nd2 then false else s.isReadyToDeliver }

/-- `Ack` (lines 118-152) including the `OnAck` hook: the hook is invoked
before the lock is taken and before any validation (lines 119-121), so
the second component, the number of hook calls made during the call, is
determined before the result is; it is 1 whenever the hook is configured,
also on both error paths and on the panicking path (where the hook has
already fired when the panic aborts the call). -/
def ackCall (s : AckState) (seq : Nat) (hookCfg : Bool) : AckResult × Nat :=
  let hooks := if hookCfg then 1 else 0
  (ackLocked s seq, hooks)

/-- Outcome of `GetNextToDeliver`.  `delivered` carries the returned
pointer (nil possible in principle) and the new state; `nothingReady` is
the nil return of an unset latch; `panicked` is the Go runtime panic of
`buff[nextIndexToDeliver]` out of range (line 171). -/
inductive GetNextResult where
  | delivered : Option DataMessage → AckState → GetNextResult
  | nothingReady : GetNextResult
  | panicked : GetNextResult
  deriving DecidableEq, Repr

/-- `GetNextToDeliver` (lines 162-177) in the quiescent semantics: the
`WaitFor` of line 163 and the relocked `IsSet` of line 168 both read the
same latch value, so the call reduces to one test of `isReadyToDeliver`;
on success it returns `buff[nextIndexToDeliver]` without removing it,
bumps the cursor, and clears the latch iff the cursor reaches
`nextIndexFree` (lines 171-175). -/
def getNext (s : AckState) : GetNextResult :=
  if s.isReadyToDeliver then
    match s.buff[s.nextIndexToDeliver]? with
    | none => GetNextResult.panicked
    | some n =>
      let nd2 := uadd s.nextIndexToDeliver 1
      GetNextResult.delivered n
        { s with nextIndexToDeliver := nd2
                 isReadyToDeliver := if s.nextIndexFree ≤ nd2 then false else s.isReadyToDeliver }
  else GetNextResult.nothingReady

/-- `ResetDelivery` (lines 179-188): zero the cursor, then set the ready
latch iff something undelivered remains (`0 < nextIndexFree`), clearing
it otherwise. -/
def resetDelivery (s : AckState) : AckState :=
  { s with nextIndexToDeliver := 0
           isReadyToDeliver := decide (0 < s.nextIndexFree) }

/-- Boolean check that slot `i` holds a message stamped with sequence
number `firstSeqNum + i` (uint64 addition). -/
def slotSeqOkB (s : AckState) (i : Nat) : Bool :=
  match s.buff[i]? with
  | some (some m) => m.seqNum == (s.firstSeqNum + i) % w
  | _ => false

/-- The quiescent-state invariants of the buffer (spec section 3), plus the
bookkeeping facts needed to maintain them: all uint64 fields are in range,
`ackEvery` is the construction-time stride, `nextSeqNum` is `firstSeqNum +
nextIndexFree` (uint64 addition), the cursor is at most the free index
which is at most the capacity, the first `nextIndexFree` slots hold the
consecutively stamped records, the remaining slots are nil, and each latch
mirrors its predicate (`available` iff room, `ready` iff undelivered
records remain). -/
def Inv (s : AckState) : Prop :=
  1 ≤ s.buff.length ∧
  s.buff.length < w ∧
  s.firstSeqNum < w ∧
  s.nextSeqNum < w ∧
  s.ackEvery = s.buff.length / 2 ∧
  s.nextSeqNum = (s.firstSeqNum + s.nextIndexFree) % w ∧
  s.nextIndexToDeliver ≤ s.nextIndexFree ∧
  s.nextIndexFree ≤ s.buff.length ∧
  (∀ i, i < s.nextIndexFree → slotSeqOkB s i = true) ∧
  (∀ i, i < s.buff.length → s.nextIndexFree ≤ i → s.buff[i]? = some none) ∧
  s.isAvailable = decide (s.nextIndexFree < s.buff.length) ∧
  s.isReadyToDeliver = decide (s.nextIndexToDeliver < s.nextIndexFree)

instance (s : AckState) : Decidable (Inv s) := by
  unfold Inv
  infer_instance

/-- One quiescent call of a mutating buffer operation that changed the
state: a successful admission, a successful acknowledgement, a successful
delivery, or a delivery reset.  Calls that return without mutating
(timeouts, rejected acks, empty polls) do not change the state and need no
transition; calls that panic abort the program and have no successor
state. -/
inductive Step : AckState → AckState → Prop where
  | addOk : ∀ (s : AckState) (e : DataMessage) (tz cfg : Bool) (s2 : AckState)
      (m : DataMessage), (add s e tz cfg).1 = AddResult.added s2 m → Step s s2
  | ackOk : ∀ (s : AckState) (seq : Nat) (s2 : AckState),
      seq < w → ackLocked s seq = AckResult.ok s2 → Step s s2
  | deliver : ∀ (s : AckState) (m : Option DataMessage) (s2 : AckState),
      getNext s = GetNextResult.delivered m s2 → Step s s2
  | reset : ∀ s : AckState, Step s (resetDelivery s)

/-- States reachable from a freshly constructed buffer of capacity `c` by
any sequence of quiescent `Add` / `Ack` / `GetNextToDeliver` /
`ResetDelivery` calls. -/
inductive Reachable (c : Nat) : AckState → Prop where
  | init : Reachable c (mkInit c)
  | step : ∀ {s s2 : AckState}, Reachable c s → Step s s2 → Reachable c s2

/-- Run a quiescent `Add` for test-state construction, keeping the state
unchanged when nothing was admitted. -/
def runAdd (s : AckState) (e : DataMessage) : AckState :=
  match (add s e false false).1 with
  | AddResult.added s2 _ => s2
  | _ => s

/-- Run a quiescent `GetNextToDeliver` for test-state construction. -/
def runNext (s : AckState) : AckState :=
  match getNext s with
  | GetNextResult.delivered _ s2 => s2
  | _ => s

/-- A producer record: payload only, no sequence number, no flags. -/
def msgP (p : Nat) : DataMessage := { payload := p, seqNum := 0, ackRequested := false }

/-- Capacity-2 buffer after admitting two records: full, both latches in
the full configuration (available cleared, ready set). -/
def sFull2 : AckState := runAdd (runAdd (mkInit 2) (msgP 1)) (msgP 2)

/-- Capacity-2 buffer after admitting two records and delivering both:
`nextIndexToDeliver = nextIndexFree = 2 = capacity`. -/
def sDone2 : AckState := runNext (runNext sFull2)

/-- Capacity-4 buffer after admitting four records and delivering all
four (the configuration of the ack-compaction scenario of the spec). -/
def sDone4 : AckState :=
  runNext (runNext (runNext (runNext
    (runAdd (runAdd (runAdd (runAdd (mkInit 4) (msgP 1)) (msgP 2)) (msgP 3)) (msgP 4)))))

lemma slotSeqOkB_iff {s : AckState} {i : Nat} :
    slotSeqOkB s i = true ↔
      ∃ m : DataMessage, s.buff[i]? = some (some m) ∧
        m.seqNum = (s.firstSeqNum + i) % w := by
  unfold slotSeqOkB
  cases h : s.buff[i]? with
  | none => simp
  | some o =>
    cases o with
    | none => simp
    | some m => simp [beq_iff_eq]

lemma inv_mkInit {c : Nat} (h1 : 1 ≤ c) (hw : c < w) : Inv (mkInit c) := by
  have h0 : 0 < c := h1
  refine ⟨?_, ?_, ?_, ?_, ?_, ?_, ?_, ?_, ?_, ?_, ?_, ?_⟩
  · simpa [mkInit] using h1
  · simpa [mkInit] using hw
  · norm_num [mkInit, w]
  · norm_num [mkInit, w]
  · simp [mkInit]
  · norm_num [mkInit, w]
  · simp [mkInit]
  · simp [mkInit]
  · intro i hi
    simp [mkInit] at hi
  · intro i hil hfree
    simp only [mkInit, List.length_replicate] at hil
    simp [mkInit, List.getElem?_replicate, hil]
  · simp [mkInit, h0]
  · simp [mkInit]

lemma inv_addLocked {s s2 : AckState} {e m : DataMessage}
    (h : Inv s) (hadd : addLocked s e = AddResult.added s2 m) : Inv s2 := by
  obtain ⟨h1, hlw, hfw, hnw, hae, hns, hndnf, hnfl, hslot, hempty, hav, hrd⟩ := h
  unfold addLocked at hadd
  split at hadd
  · exact absurd hadd (by simp)
  · split at hadd
    · injection hadd with hs hm
      subst hs
      have hnf : s.nextIndexFree < s.buff.length := by assumption
      have hnf2 : uadd s.nextIndexFree 1 = s.nextIndexFree + 1 := by
        simp only [uadd, w] at *
        omega
      refine ⟨?_, ?_, ?_, ?_, ?_, ?_, ?_, ?_, ?_, ?_, ?_, ?_⟩
      · simpa using h1
      · simpa using hlw
      · exact hfw
      · simp only [uadd]
        exact Nat.mod_lt _ (by simp [w])
      · simpa using hae
      · simp only [List.length_set, hnf2, uadd, hns]
        simp [Nat.mod_add_mod, Nat.add_assoc]
      · simp only [hnf2]
        omega
      · simp only [List.length_set, hnf2]
        omega
      · intro i hi
        simp only [hnf2] at hi
        rcases Nat.lt_or_ge i s.nextIndexFree with hlt | hge
        · rcases slotSeqOkB_iff.mp (hslot i hlt) with ⟨mi, hmi, hmiseq⟩
          refine slotSeqOkB_iff.mpr ⟨mi, ?_, hmiseq⟩
          simpa [List.getElem?_set_ne (by omega : s.nextIndexFree ≠ i)] using hmi
        · have hieq : i = s.nextIndexFree := by omega
          subst hieq
          refine slotSeqOkB_iff.mpr ⟨m, ?_, ?_⟩
          · simp only [List.getElem?_set_self hnf, hm]
          · rw [← hm]
            simpa using hns
      · intro i hil hfree
        simp only [List.length_set] at hil
        simp only [hnf2] at hfree
        rw [List.getElem?_set_ne (by omega : s.nextIndexFree ≠ i)]
        exact hempty i hil (by omega)
      · simp only [List.length_set, hnf2]
        split
        · have : s.buff.length = s.nextIndexFree + 1 := by omega
          simp [this]
        · have hx : s.nextIndexFree + 1 < s.buff.length := by omega
          simp [hav, hnf, hx]
      · simp only [hnf2]
        simp [Nat.lt_succ_of_le hndnf]
    · exact absurd hadd (by simp)

lemma inv_add {s s2 : AckState} {e m : DataMessage} {tz cfg : Bool}
    (h : Inv s) (hadd : (add s e tz cfg).1 = AddResult.added s2 m) : Inv s2 := by
  unfold add at hadd
  split at hadd
  · split at hadd
    · exact inv_addLocked h hadd
    · split at hadd <;> exact absurd hadd (by simp)
  · simp only at hadd
    split at hadd
    · exact inv_addLocked h hadd
    · exact absurd hadd (by simp)

lemma inv_ackOk {s s2 : AckState} {seq : Nat} (hw : seq < w)
    (h : Inv s) (hack : ackLocked s seq = AckResult.ok s2) : Inv s2 := by
  obtain ⟨h1, hlw, hfw, hnw, hae, hns, hndnf, hnfl, hslot, hempty, hav, hrd⟩ := h
  simp only [ackLocked] at hack
  split at hack
  · exact absurd hack (by simp)
  · split at hack
    · exact absurd hack (by simp)
    · split at hack
      · split at hack <;> exact absurd hack (by simp)
      · injection hack with hs2
        subst hs2
        rename_i hnotle
        have hidx : usub seq s.firstSeqNum < s.nextIndexToDeliver :=
          Nat.lt_of_not_le hnotle
        have hkey : (s.firstSeqNum + usub seq s.firstSeqNum) % w = seq := by
          simp only [usub, w] at *
          omega
        have hnf2 : usub (usub s.nextIndexFree (usub seq s.firstSeqNum)) 1 =
            s.nextIndexFree - usub seq s.firstSeqNum - 1 := by
          simp only [usub, w] at *
          omega
        have hnd2 : usub s.nextIndexToDeliver (uadd (usub seq s.firstSeqNum) 1) =
            s.nextIndexToDeliver - usub seq s.firstSeqNum - 1 := by
          simp only [usub, uadd, w] at *
          omega
        refine ⟨?_, ?_, ?_, ?_, ?_, ?_, ?_, ?_, ?_, ?_, ?_, ?_⟩
        · simpa [List.length_ofFn] using h1
        · simpa [List.length_ofFn] using hlw
        · simp only [uadd]
          exact Nat.mod_lt _ (by norm_num [w])
        · exact hnw
        · simpa [List.length_ofFn] using hae
        · simp only [uadd, usub, w] at *
          omega
        · simp only [hnf2, hnd2]
          omega
        · simp only [List.length_ofFn, hnf2]
          omega
        · intro j hj
          simp only [hnf2] at hj
          have hjl : j < s.buff.length := by omega
          have hj2 : j + usub seq s.firstSeqNum + 1 < s.nextIndexFree := by omega
          obtain ⟨mj, hmj, hmjseq⟩ := slotSeqOkB_iff.mp (hslot _ hj2)
          refine slotSeqOkB_iff.mpr ⟨mj, ?_, ?_⟩
          · simp only [List.getElem?_ofFn, List.ofFnNthVal]
            rw [dif_pos hjl]
            have hc1 : ¬ (usub (usub s.nextIndexFree (usub seq s.firstSeqNum)) 1 ≤ j) := by
              rw [hnf2]; omega
            have hc2 : j + usub seq s.firstSeqNum + 1 < s.buff.length := by omega
            simp only [if_neg hc1, if_pos hc2]
            rw [List.getD_eq_getElem?_getD, hmj]
            rfl
          · simp only [uadd, usub, w] at *
            omega
        · intro j hjl hfree
          simp only [List.length_ofFn] at hjl
          simp only [hnf2] at hfree
          have hc1 : usub (usub s.nextIndexFree (usub seq s.firstSeqNum)) 1 ≤ j := by
            rw [hnf2]; omega
          simp only [List.getElem?_ofFn, List.ofFnNthVal]
          rw [dif_pos hjl]
          simp only [if_pos hc1]
        · simp only [List.length_ofFn, hnf2]
          have : s.nextIndexFree - usub seq s.firstSeqNum - 1 < s.buff.length := by omega
          simp [this]
        · simp only [hnf2, hnd2]
          rcases le_or_lt (s.nextIndexFree - usub seq s.firstSeqNum - 1)
              (s.nextIndexToDeliver - usub seq s.firstSeqNum - 1) with hle | hlt
          · rw [if_pos hle]
            have : ¬ (s.nextIndexToDeliver - usub seq s.firstSeqNum - 1 <
                s.nextIndexFree - usub seq s.firstSeqNum - 1) := by omega
            simp [this]
          · rw [if_neg (by omega)]
            have hnn : s.nextIndexToDeliver < s.nextIndexFree := by omega
            simp [hrd, hnn, hlt]

lemma inv_getNext {s s2 : AckState} {m : Option DataMessage}
    (h : Inv s) (hg : getNext s = GetNextResult.delivered m s2) : Inv s2 := by
  obtain ⟨h1, hlw, hfw, hnw, hae, hns, hndnf, hnfl, hslot, hempty, hav, hrd⟩ := h
  unfold getNext at hg
  split at hg
  · split at hg
    · exact absurd hg (by simp)
    · injection hg with hm hs2
      subst hs2
      have hready : s.isReadyToDeliver = true := by assumption
      have hlt : s.nextIndexToDeliver < s.nextIndexFree := by
        rw [hready] at hrd
        exact of_decide_eq_true hrd.symm
      have hnd2 : uadd s.nextIndexToDeliver 1 = s.nextIndexToDeliver + 1 := by
        simp only [uadd, w] at *
        omega
      refine ⟨by simpa using h1, by simpa using hlw, hfw, hnw, by simpa using hae,
        by simpa using hns, ?_, by simpa using hnfl, ?_, ?_, by simpa using hav, ?_⟩
      · simp only [hnd2]
        omega
      · intro i hi
        obtain ⟨mi, hmi, hmiseq⟩ := slotSeqOkB_iff.mp (hslot i hi)
        exact slotSeqOkB_iff.mpr ⟨mi, by simpa using hmi, by simpa using hmiseq⟩
      · intro i hil hfree
        exact hempty i (by simpa using hil) (by simpa using hfree)
      · simp only [hnd2]
        rcases le_or_lt s.nextIndexFree (s.nextIndexToDeliver + 1) with hle | hgt
        · rw [if_pos hle]
          have : ¬ (s.nextIndexToDeliver + 1 < s.nextIndexFree) := by omega
          simp [this]
        · rw [if_neg (by omega)]
          simp [hrd, hlt, hgt]
  · exact absurd hg (by simp)

lemma inv_reset {s : AckState} (h : Inv s) : Inv (resetDelivery s) := by
  obtain ⟨h1, hlw, hfw, hnw, hae, hns, hndnf, hnfl, hslot, hempty, hav, hrd⟩ := h
  refine ⟨by simpa [resetDelivery] using h1, by simpa [resetDelivery] using hlw, hfw, hnw,
    by simpa [resetDelivery] using hae, by simpa [resetDelivery] using hns, ?_,
    by simpa [resetDelivery] using hnfl, ?_, ?_, by simpa [resetDelivery] using hav, ?_⟩
  · simp [resetDelivery]
  · intro i hi
    obtain ⟨mi, hmi, hmiseq⟩ := slotSeqOkB_iff.mp (hslot i (by simpa [resetDelivery] using hi))
    exact slotSeqOkB_iff.mpr ⟨mi, by simpa [resetDelivery] using hmi,
      by simpa [resetDelivery] using hmiseq⟩
  · intro i hil hfree
    exact hempty i (by simpa [resetDelivery] using hil) (by simpa [resetDelivery] using hfree)
  · simp [resetDelivery]

lemma inv_of_reachable {c : Nat} {s : AckState} (h1 : 1 ≤ c) (hw : c < w)
    (h : Reachable c s) : Inv s := by
  induction h with
  | init => exact inv_mkInit h1 hw
  | step hr hst ih =>
    cases hst with
    | addOk e tz cfg s2 m hadd => exact inv_add ih hadd
    | ackOk seq s2 hseqlt hack => exact inv_ackOk hseqlt ih hack
    | deliver m s2 hg => exact inv_getNext ih hg
    | reset => exact inv_reset ih

lemma length_addLocked {s s2 : AckState} {e m : DataMessage}
    (hadd : addLocked s e = AddResult.added s2 m) : s2.buff.length = s.buff.length := by
  unfold addLocked at hadd
  split at hadd
  · exact absurd hadd (by simp)
  · split at hadd
    · injection hadd with hs _
      subst hs
      simp
    · exact absurd hadd (by simp)

lemma length_add {s s2 : AckState} {e m : DataMessage} {tz cfg : Bool}
    (hadd : (add s e tz cfg).1 = AddResult.added s2 m) : s2.buff.length = s.buff.length := by
  unfold add at hadd
  split at hadd
  · split at hadd
    · exact length_addLocked hadd
    · split at hadd <;> exact absurd hadd (by simp)
  · simp only at hadd
    split at hadd
    · exact length_addLocked hadd
    · exact absurd hadd (by simp)

lemma length_ackOk {s s2 : AckState} {seq : Nat}
    (hack : ackLocked s seq = AckResult.ok s2) : s2.buff.length = s.buff.length := by
  simp only [ackLocked] at hack
  split at hack
  · exact absurd hack (by simp)
  · split at hack
    · exact absurd hack (by simp)
    · split at hack
      · split at hack <;> exact absurd hack (by simp)
      · injection hack with hs
        subst hs
        simp [List.length_ofFn]

lemma length_getNext {s s2 : AckState} {m : Option DataMessage}
    (hg : getNext s = GetNextResult.delivered m s2) : s2.buff.length = s.buff.length := by
  unfold getNext at hg
  split at hg
  · split at hg
    · exact absurd hg (by simp)
    · injection hg with _ hs
      subst hs
      rfl
  · exact absurd hg (by simp)

lemma reachable_length {c : Nat} {s : AckState} (h : Reachable c s) :
    s.buff.length = c := by
  induction h with
  | init => simp [mkInit]
  | step hr hst ih =>
    cases hst with
    | addOk e tz cfg s2 m hadd => rw [length_add hadd]; exact ih
    | ackOk seq s2 hseqlt hack => rw [length_ackOk hack]; exact ih
    | deliver m s2 hg => rw [length_getNext hg]; exact ih
    | reset => simpa [resetDelivery] using ih

lemma ack_effect {s : AckState} {seq : Nat} (h : Inv s)
    (hof : s.firstSeqNum + s.nextIndexFree < w)
    (hlo : s.firstSeqNum ≤ seq)
    (hhi : seq < s.firstSeqNum + s.nextIndexToDeliver) :
    ∃ s2, ackLocked s seq = AckResult.ok s2 ∧
      s2.firstSeqNum = seq + 1 ∧
      s2.nextIndexFree = s.nextIndexFree - (seq - s.firstSeqNum + 1) ∧
      s2.nextIndexToDeliver = s.nextIndexToDeliver - (seq - s.firstSeqNum + 1) ∧
      s2.isAvailable = true ∧
      (s2.isReadyToDeliver = false ↔ s2.nextIndexToDeliver = s2.nextIndexFree) ∧
      s2.buff.length = s.buff.length ∧
      (∀ j, j < s2.nextIndexFree → s2.buff[j]? = s.buff[j + (seq - s.firstSeqNum) + 1]?) ∧
      (∀ j, s2.nextIndexFree ≤ j → j < s.buff.length → s2.buff[j]? = some none) := by
  obtain ⟨h1, hlw, hfw, hnw, hae, hns, hndnf, hnfl, hslot, hempty, hav, hrd⟩ := h
  have hseqw : seq < w := by omega
  have hidx : usub seq s.firstSeqNum = seq - s.firstSeqNum := by
    simp only [usub, w] at *
    omega
  have hnseq : s.nextSeqNum = s.firstSeqNum + s.nextIndexFree := by
    rw [hns]
    exact Nat.mod_eq_of_lt hof
  have hc1 : ¬ (seq < s.firstSeqNum ∧
      usub s.buff.length (usub maxU64 s.firstSeqNum) ≤ seq) := by
    intro hx
    omega
  have hc2 : ¬ (s.nextSeqNum ≤ seq ∧ usub maxU64 seq ≤ s.nextSeqNum) := by
    intro hx
    omega
  have hc3 : ¬ (s.nextIndexToDeliver ≤ usub seq s.firstSeqNum) := by
    rw [hidx]
    omega
  have hnf2 : usub (usub s.nextIndexFree (usub seq s.firstSeqNum)) 1 =
      s.nextIndexFree - (seq - s.firstSeqNum) - 1 := by
    simp only [usub, w] at *
    omega
  have hnd2 : usub s.nextIndexToDeliver (uadd (usub seq s.firstSeqNum) 1) =
      s.nextIndexToDeliver - (seq - s.firstSeqNum) - 1 := by
    simp only [usub, uadd, w] at *
    omega
  have hfs2 : uadd seq 1 = seq + 1 := by
    simp only [uadd, w] at *
    omega
  simp only [ackLocked]
  rw [if_neg hc1, if_neg hc2, if_neg hc3]
  refine ⟨_, rfl, ?_, ?_, ?_, ?_, ?_, ?_, ?_, ?_⟩
  · simpa using hfs2
  · simp only [hnf2]
    omega
  · simp only [hnd2]
    omega
  · rfl
  · simp only [hnf2, hnd2]
    rcases le_or_lt (s.nextIndexFree - (seq - s.firstSeqNum) - 1)
        (s.nextIndexToDeliver - (seq - s.firstSeqNum) - 1) with hle | hlt
    · rw [if_pos hle]
      constructor
      · intro _
        omega
      · intro _
        rfl
    · rw [if_neg (by omega)]
      have hnn : s.nextIndexToDeliver < s.nextIndexFree := by omega
      rw [hrd]
      simp [hnn]
      omega
  · simp [List.length_ofFn]
  · intro j hj
    simp only [hnf2] at hj
    have hjl : j < s.buff.length := by omega
    have hj2 : j + (seq - s.firstSeqNum) + 1 < s.nextIndexFree := by omega
    have hj2l : j + (seq - s.firstSeqNum) + 1 < s.buff.length := by omega
    obtain ⟨mj, hmj, hmjseq⟩ := slotSeqOkB_iff.mp (hslot _ hj2)
    simp only [List.getElem?_ofFn, List.ofFnNthVal]
    rw [dif_pos hjl]
    have hcc1 : ¬ (usub (usub s.nextIndexFree (usub seq s.firstSeqNum)) 1 ≤ j) := by
      rw [hnf2]; omega
    have hcc2 : j + usub seq s.firstSeqNum + 1 < s.buff.length := by
      rw [hidx]; omega
    simp only [if_neg hcc1, if_pos hcc2]
    rw [List.getD_eq_getElem?_getD, hidx, hmj]
    rfl
  · intro j hfree hjl
    simp only [hnf2] at hfree
    have hcc1 : usub (usub s.nextIndexFree (usub seq s.firstSeqNum)) 1 ≤ j := by
      rw [hnf2]; omega
    simp only [List.getElem?_ofFn, List.ofFnNthVal]
    rw [dif_pos hjl]
    simp only [if_pos hcc1]

lemma add_added {s s2 : AckState} {e m : DataMessage} {tz cfg : Bool}
    (h : (add s e tz cfg).1 = AddResult.added s2 m) :
    s.isAvailable = true ∧ addLocked s e = AddResult.added s2 m := by
  unfold add at h
  split at h
  · split at h
    · exact ⟨by assumption, h⟩
    · split at h <;> exact absurd h (by simp)
  · simp only at h
    split at h
    · exact ⟨by assumption, h⟩
    · exact absurd h (by simp)

lemma reachable_sFull2 : Reachable 2 sFull2 :=
  Reachable.step
    (Reachable.step Reachable.init
      (Step.addOk (mkInit 2) (msgP 1) false false (runAdd (mkInit 2) (msgP 1))
        { payload := 1, seqNum := 1, ackRequested := true } (by decide)))
    (Step.addOk (runAdd (mkInit 2) (msgP 1)) (msgP 2) false false sFull2
      { payload := 2, seqNum := 2, ackRequested := true } (by decide))

lemma reachable_sDone2 : Reachable 2 sDone2 :=
  Reachable.step
    (Reachable.step reachable_sFull2
      (Step.deliver sFull2 (some { payload := 1, seqNum := 1, ackRequested := true })
        (runNext sFull2) (by decide)))
    (Step.deliver (runNext sFull2) (some { payload := 2, seqNum := 2, ackRequested := true })
      sDone2 (by decide))

/-- C1: the claim says that in every reachable state, in particular with
the buffer full and every slot delivered, an out-of-range `Ack` returns
the UnexpectedAck error and leaves the state unchanged.  The code instead
evaluates `buff[nextIndexToDeliver]` with the cursor equal to the
capacity while building the error, an index out of range: the reachable
capacity-2 state with both slots admitted and delivered makes `Ack 3`
panic instead of returning an error. -/
theorem c1_ack_panics_when_full_and_delivered :
    Reachable 2 sDone2 ∧ sDone2.nextIndexToDeliver = 2 ∧ sDone2.nextIndexFree = 2 ∧
    ackLocked sDone2 3 = AckResult.panicked :=
  ⟨reachable_sDone2, by decide, by decide, by decide⟩

/-- C2 counterexample: the claim says every `Admit` after `Close` returns
false and stores nothing, regardless of free slots.  On a freshly
constructed capacity-2 buffer that has been closed, `Add` succeeds: it
returns true, stamps the record with sequence number 1 and stores it,
because the code checks `isRunning` only when the `isAvailable` latch is
unset (lines 90-98 of the source). -/
theorem c2_admit_after_close_succeeds :
    (close (mkInit 2)).isRunning = false ∧
    (add (close (mkInit 2)) (msgP 1) false false).1 =
      AddResult.added
        { isRunning := false, isAvailable := true,
          buff := [some { payload := 1, seqNum := 1, ackRequested := true }, none],
          nextIndexFree := 1, firstSeqNum := 1, nextSeqNum := 2, ackEvery := 1,
          nextIndexToDeliver := 0, isReadyToDeliver := true }
        { payload := 1, seqNum := 1, ackRequested := true } := by
  exact ⟨by decide, by decide⟩

/-- C2 amended: with `running` cleared, `Admit` returns false without
storing only when the buffer has no free slot (`available` unset); when a
free slot remains, `Admit` succeeds and stores the record despite the
close, because `isRunning` is consulted only on the unavailable path. -/
theorem c2_admit_after_close_amended (s : AckState) (e : DataMessage) (tz cfg : Bool)
    (hrun : s.isRunning = false) :
    (s.isAvailable = false → (add s e tz cfg).1 = AddResult.notAdded) ∧
    (s.isAvailable = true → s.ackEvery ≠ 0 → s.nextIndexFree < s.buff.length →
      ∃ s2 m, (add s e tz cfg).1 = AddResult.added s2 m ∧
        s2.buff[s.nextIndexFree]? = some (some m) ∧
        s2.nextIndexFree = uadd s.nextIndexFree 1) := by
  constructor
  · intro hna
    cases tz <;> simp [add, hna, hrun]
  · intro hav hk hnff
    have hAL : ∃ s2 m2, addLocked s e = AddResult.added s2 m2 ∧
        s2.buff = s.buff.set s.nextIndexFree (some m2) ∧
        s2.nextIndexFree = uadd s.nextIndexFree 1 := by
      unfold addLocked
      rw [if_neg hk, if_pos hnff]
      exact ⟨_, _, rfl, rfl, rfl⟩
    obtain ⟨s2, m2, hAL, hbuff, hnf⟩ := hAL
    refine ⟨s2, m2, ?_, ?_, hnf⟩
    · cases tz <;> simp [add, hav, hAL]
    · rw [hbuff]
      simp [List.getElem?_set_self hnff]

/-- C2 witness for the amended statement: a closed full buffer rejects the
admission; a closed buffer with room admits and stores. -/
theorem c2_admit_after_close_witness :
    (add (close sFull2) (msgP 9) true true).1 = AddResult.notAdded ∧
    (∃ s2 m, (add (close (mkInit 2)) (msgP 1) false false).1 = AddResult.added s2 m ∧
      s2.buff[(close (mkInit 2)).nextIndexFree]? = some (some m) ∧
      s2.nextIndexFree = uadd (close (mkInit 2)).nextIndexFree 1) :=
  ⟨(c2_admit_after_close_amended (close sFull2) (msgP 9) true true (by decide)).1 (by decide),
   (c2_admit_after_close_amended (close (mkInit 2)) (msgP 1) false false (by decide)).2
     (by decide) (by decide) (by decide)⟩

/-- C3 counterexample: the claim says that after `Close` returns the
`available` latch is set.  `Close` writes only `isRunning` (lines 62-66);
on the reachable full capacity-2 buffer the latch is unset before the
close and still unset after it. -/
theorem c3_close_leaves_available_unset :
    Reachable 2 sFull2 ∧ sFull2.isAvailable = false ∧
    (close sFull2).isAvailable = false :=
  ⟨reachable_sFull2, by decide, by decide⟩

/-- C3 amended: `Close` sets `running` to false and leaves every other
field, both latches included, unchanged; a blocked admitter with timeout
zero then observes `running` false on its next 500 ms poll of the unset
latch and returns false (the admitters with a deadline return false at
their own deadline). -/
theorem c3_close_amended (s : AckState) :
    (close s).isRunning = false ∧
    (close s).isAvailable = s.isAvailable ∧
    (close s).isReadyToDeliver = s.isReadyToDeliver ∧
    (close s).buff = s.buff ∧
    (close s).nextIndexFree = s.nextIndexFree ∧
    (close s).firstSeqNum = s.firstSeqNum ∧
    (close s).nextSeqNum = s.nextSeqNum ∧
    (close s).nextIndexToDeliver = s.nextIndexToDeliver ∧
    (∀ (e : DataMessage) (cfg : Bool), s.isAvailable = false →
      (add (close s) e true cfg).1 = AddResult.notAdded) := by
  refine ⟨rfl, rfl, rfl, rfl, rfl, rfl, rfl, rfl, ?_⟩
  intro e cfg hna
  simp [add, close, hna]

/-- C3 witness for the amended statement, on the reachable full
capacity-2 buffer. -/
theorem c3_close_witness :
    (close sFull2).isRunning = false ∧
    (add (close sFull2) (msgP 7) true false).1 = AddResult.notAdded :=
  ⟨(c3_close_amended sFull2).1,
   (c3_close_amended sFull2).2.2.2.2.2.2.2.2 (msgP 7) false (by decide)⟩

/-- C4: in every state reachable by any sequence of quiescent `Admit`,
`Ack`, `NextToDeliver` and `ResetDelivery` calls on a buffer of capacity
`c` (a Go uint64, so below `2 ^ 64`), the buffer invariants hold:
`nextSeqNum = firstSeqNum + nextIndexFree` (uint64 addition), the cursor
is at most the free index which is at most the capacity, the first
`nextIndexFree` slots hold the consecutively numbered records and the
rest are nil, `available` is set iff the buffer has room, and `ready` is
set iff undelivered records remain. -/
theorem c4_invariants_hold (c : Nat) (s : AckState) (h1 : 1 ≤ c) (hw : c < w)
    (hr : Reachable c s) : Inv s :=
  inv_of_reachable h1 hw hr

/-- C4 witness: the invariants at a concrete reachable state. -/
theorem c4_invariants_witness : (1 : Nat) ≤ 2 ∧ Inv (mkInit 2) :=
  ⟨by norm_num, c4_invariants_hold 2 (mkInit 2) (by norm_num) (by norm_num [w]) Reachable.init⟩

/-- C5: a valid `Ack seq` (`firstSeqNum ≤ seq < firstSeqNum +
nextIndexToDeliver`, with no wraparound in flight) succeeds and, with
`idx = seq - firstSeqNum`: sets `firstSeqNum` to `seq + 1`, decrements
both `nextIndexFree` and `nextIndexToDeliver` by `idx + 1`, raises
`available`, lowers `ready` iff the new cursor equals the new free index,
shifts the surviving slots left by `idx + 1` and clears the tail. -/
theorem c5_ack_compaction_effect (s : AckState) (seq : Nat) (h : Inv s)
    (hof : s.firstSeqNum + s.nextIndexFree < w)
    (hlo : s.firstSeqNum ≤ seq)
    (hhi : seq < s.firstSeqNum + s.nextIndexToDeliver) :
    ∃ s2, ackLocked s seq = AckResult.ok s2 ∧
      s2.firstSeqNum = seq + 1 ∧
      s2.nextIndexFree = s.nextIndexFree - (seq - s.firstSeqNum + 1) ∧
      s2.nextIndexToDeliver = s.nextIndexToDeliver - (seq - s.firstSeqNum + 1) ∧
      s2.isAvailable = true ∧
      (s2.isReadyToDeliver = false ↔ s2.nextIndexToDeliver = s2.nextIndexFree) ∧
      s2.buff.length = s.buff.length ∧
      (∀ j, j < s2.nextIndexFree → s2.buff[j]? = s.buff[j + (seq - s.firstSeqNum) + 1]?) ∧
      (∀ j, s2.nextIndexFree ≤ j → j < s.buff.length → s2.buff[j]? = some none) :=
  ack_effect h hof hlo hhi

/-- C5 witness: the ack-compaction scenario of the spec, capacity 4, four
records admitted and delivered, `Ack 2`: the two records with sequence
numbers 3 and 4 remain and `available` is set. -/
theorem c5_ack_compaction_witness :
    Inv sDone4 ∧
    (∃ s2, ackLocked sDone4 2 = AckResult.ok s2 ∧
      s2.firstSeqNum = 2 + 1 ∧
      s2.nextIndexFree = sDone4.nextIndexFree - (2 - sDone4.firstSeqNum + 1) ∧
      s2.nextIndexToDeliver = sDone4.nextIndexToDeliver - (2 - sDone4.firstSeqNum + 1) ∧
      s2.isAvailable = true ∧
      (s2.isReadyToDeliver = false ↔ s2.nextIndexToDeliver = s2.nextIndexFree) ∧
      s2.buff.length = sDone4.buff.length ∧
      (∀ j, j < s2.nextIndexFree →
        s2.buff[j]? = sDone4.buff[j + (2 - sDone4.firstSeqNum) + 1]?) ∧
      (∀ j, s2.nextIndexFree ≤ j → j < sDone4.buff.length → s2.buff[j]? = some none)) :=
  ⟨by decide, c5_ack_compaction_effect sDone4 2 (by decide) (by decide) (by decide) (by decide)⟩

/-- C6: a record carrying no producer-set flag that is admitted into a
buffer whose stride invariant holds (`ackEvery = capacity / 2`, true of
every constructed buffer) ends up with `ackRequested` true iff its
assigned sequence number is a nonzero multiple of `capacity / 2`; the
hypothesis `nextSeqNum` nonzero excludes the wrapped sequence space,
unreachable before `2 ^ 64` admissions. -/
theorem c6_ack_requested_stride (s : AckState) {s2 : AckState} (e : DataMessage)
    {m : DataMessage} (tz cfg : Bool) (h : Inv s) (hflag : e.ackRequested = false)
    (hns0 : s.nextSeqNum ≠ 0)
    (hadd : (add s e tz cfg).1 = AddResult.added s2 m) :
    m.ackRequested = true ↔ (s.buff.length / 2 ∣ m.seqNum ∧ m.seqNum ≠ 0) := by
  obtain ⟨h1, hlw, hfw, hnw, hae, hns, hndnf, hnfl, hslot, hempty, hav, hrd⟩ := h
  obtain ⟨hav2, hAL⟩ := add_added hadd
  unfold addLocked at hAL
  split at hAL
  · exact absurd hAL (by simp)
  · rename_i hk
    split at hAL
    · injection hAL with hs hm
      have hmseq : m.seqNum = s.nextSeqNum := by rw [← hm]
      have hmack : m.ackRequested =
          (if s.nextSeqNum % s.ackEvery = 0 then true else e.ackRequested) := by
        rw [← hm]
      rw [hflag] at hmack
      constructor
      · intro ht
        by_cases hz : s.nextSeqNum % s.ackEvery = 0
        · refine ⟨?_, ?_⟩
          · rw [hmseq, ← hae]
            exact Nat.dvd_of_mod_eq_zero hz
          · rw [hmseq]
            exact hns0
        · rw [ht, if_neg hz] at hmack
          exact absurd hmack.symm (by simp)
      · rintro ⟨hdvd, hne⟩
        have hz : s.nextSeqNum % s.ackEvery = 0 := by
          rw [hae]
          rw [hmseq] at hdvd
          exact Nat.mod_eq_zero_of_dvd hdvd
        rw [hmack, if_pos hz]
    · exact absurd hAL (by simp)

/-- C6 witness: first admission into a capacity-4 buffer assigns sequence
number 1, not a multiple of 2, so the flag stays false. -/
theorem c6_ack_requested_witness :
    ({ payload := 1, seqNum := 1, ackRequested := false } : DataMessage).ackRequested = true ↔
      ((mkInit 4).buff.length / 2 ∣
        ({ payload := 1, seqNum := 1, ackRequested := false } : DataMessage).seqNum ∧
       ({ payload := 1, seqNum := 1, ackRequested := false } : DataMessage).seqNum ≠ 0) :=
  c6_ack_requested_stride (mkInit 4) (msgP 1) false false (by decide) (by decide) (by decide)
    (show (add (mkInit 4) (msgP 1) false false).1 = AddResult.added
      { isRunning := true, isAvailable := true,
        buff := [some { payload := 1, seqNum := 1, ackRequested := false }, none, none, none],
        nextIndexFree := 1, firstSeqNum := 1, nextSeqNum := 2, ackEvery := 2,
        nextIndexToDeliver := 0, isReadyToDeliver := true }
      { payload := 1, seqNum := 1, ackRequested := false } from by decide)

/-- C7: `ResetDelivery` zeroes the cursor, raises `ready` iff the buffer
is non-empty, leaves the slots alone; on a non-empty buffer the next
`NextToDeliver` then returns the record of slot 0, whose sequence number
is `firstSeqNum`, the smallest in the buffer, without removing it. -/
theorem c7_reset_delivery_replay (s : AckState) (h : Inv s)
    (hof : s.firstSeqNum + s.nextIndexFree ≤ w) :
    (resetDelivery s).nextIndexToDeliver = 0 ∧
    (resetDelivery s).isReadyToDeliver = decide (0 < s.nextIndexFree) ∧
    (resetDelivery s).buff = s.buff ∧
    (0 < s.nextIndexFree →
      ∃ m s2, getNext (resetDelivery s) = GetNextResult.delivered (some m) s2 ∧
        s.buff[0]? = some (some m) ∧ m.seqNum = s.firstSeqNum ∧
        s2.buff = s.buff ∧ s2.nextIndexToDeliver = 1 ∧
        (∀ i mi, i < s.nextIndexFree → s.buff[i]? = some (some mi) →
          m.seqNum ≤ mi.seqNum)) := by
  obtain ⟨h1, hlw, hfw, hnw, hae, hns, hndnf, hnfl, hslot, hempty, hav, hrd⟩ := h
  refine ⟨rfl, rfl, rfl, ?_⟩
  intro hpos
  obtain ⟨m0, hm0, hm0seq⟩ := slotSeqOkB_iff.mp (hslot 0 hpos)
  have hm0fs : m0.seqNum = s.firstSeqNum := by
    rw [hm0seq, Nat.add_zero]
    exact Nat.mod_eq_of_lt hfw
  have hone : uadd 0 1 = 1 := by
    simp [uadd, w]
  have hready : (resetDelivery s).isReadyToDeliver = true := by
    simp [resetDelivery, hpos]
  refine ⟨m0,
    { s with nextIndexToDeliver := uadd 0 1,
             isReadyToDeliver := if s.nextIndexFree ≤ uadd 0 1 then false
               else decide (0 < s.nextIndexFree) }, ?_, hm0, hm0fs, ?_, ?_, ?_⟩
  · unfold getNext
    rw [if_pos hready]
    simp only [resetDelivery, hm0]
  · rfl
  · exact hone
  · intro i mi hi hslotmi
    obtain ⟨mi2, hmi2, hmi2seq⟩ := slotSeqOkB_iff.mp (hslot i hi)
    rw [hslotmi] at hmi2
    have hmieq : mi = mi2 := by
      simpa using hmi2
    subst hmieq
    rw [hm0fs, hmi2seq, Nat.mod_eq_of_lt (by omega)]
    omega

/-- C7 witness: on the full capacity-2 buffer, after `ResetDelivery` the
next delivery hands back the record with sequence number 1 (slot 0)
without removing it. -/
theorem c7_reset_delivery_witness :
    (resetDelivery sFull2).nextIndexToDeliver = 0 ∧
    (resetDelivery sFull2).isReadyToDeliver = decide (0 < sFull2.nextIndexFree) ∧
    (resetDelivery sFull2).buff = sFull2.buff ∧
    (∃ m s2, getNext (resetDelivery sFull2) = GetNextResult.delivered (some m) s2 ∧
      sFull2.buff[0]? = some (some m) ∧ m.seqNum = sFull2.firstSeqNum ∧
      s2.buff = sFull2.buff ∧ s2.nextIndexToDeliver = 1 ∧
      (∀ i mi, i < sFull2.nextIndexFree → sFull2.buff[i]? = some (some mi) →
        m.seqNum ≤ mi.seqNum)) := by
  have h := c7_reset_delivery_replay sFull2 (by decide) (by decide)
  exact ⟨h.1, h.2.1, h.2.2.1, h.2.2.2 (by decide)⟩

/-- C8 counterexample: the claim says the backpressure hook fires for
every blocked wait, including `timeout == 0`.  With timeout zero on a
full running buffer the code takes the polling branch (lines 86-88),
which never touches the hook: the call blocks and the configured hook is
invoked zero times. -/
theorem c8_no_hook_when_timeout_zero :
    sFull2.isAvailable = false ∧ sFull2.isRunning = true ∧
    (add sFull2 (msgP 3) true true).1 = AddResult.blocked ∧
    (add sFull2 (msgP 3) true true).2 = 0 := by
  exact ⟨by decide, by decide, by decide, by decide⟩

/-- C8 amended: in a quiescent wait the configured backpressure hook is
invoked exactly once when `Admit` blocks on a full buffer with a nonzero
timeout, and never with timeout zero (nor when the buffer has room). -/
theorem c8_backpressure_amended (s : AckState) (e : DataMessage) (cfg : Bool) :
    (add s e true cfg).2 = 0 ∧
    (s.isAvailable = false → (add s e false cfg).2 = if cfg then 1 else 0) ∧
    (s.isAvailable = true → (add s e false cfg).2 = 0) := by
  refine ⟨?_, ?_, ?_⟩
  · cases hA : s.isAvailable <;> cases hR : s.isRunning <;> simp [add, hA, hR]
  · intro hna
    cases cfg <;> simp [add, hna]
  · intro hav
    cases cfg <;> simp [add, hav]

/-- C8 witness for the amended statement, on the full capacity-2
buffer with the hook configured. -/
theorem c8_backpressure_witness :
    (add sFull2 (msgP 4) true true).2 = 0 ∧
    (add sFull2 (msgP 4) false true).2 = 1 :=
  ⟨(c8_backpressure_amended sFull2 (msgP 4) true).1,
   by simpa using (c8_backpressure_amended sFull2 (msgP 4) true).2.1 (by decide)⟩

/-- C9: `Admit` on a capacity-1 buffer always faults with the division by
zero of `seq % ackEvery` (`ackEvery = 1 / 2 = 0`), and on every reachable
buffer of capacity at least 2 the modulo divisor is nonzero, so the
division-by-zero fault is impossible. -/
theorem c9_div_by_zero_iff_capacity_one :
    (∀ (e : DataMessage) (tz cfg : Bool), (add (mkInit 1) e tz cfg).1 = AddResult.divByZero) ∧
    (∀ (c : Nat) (s : AckState) (e : DataMessage) (tz cfg : Bool), 2 ≤ c → c < w →
      Reachable c s → (add s e tz cfg).1 ≠ AddResult.divByZero) := by
  constructor
  · intro e tz cfg
    cases tz <;> simp [add, addLocked, mkInit]
  · intro c s e tz cfg hc hw hr hcontra
    have hInv := inv_of_reachable (by omega) hw hr
    have hlen := reachable_length hr
    have hk : s.ackEvery ≠ 0 := by
      obtain ⟨_, _, _, _, hae, _⟩ := hInv
      rw [hae, hlen]
      omega
    revert hcontra
    unfold add
    split
    · split
      · unfold addLocked
        rw [if_neg hk]
        rcases Nat.lt_or_ge s.nextIndexFree s.buff.length with hx | hx
        · simp [hx]
        · simp [Nat.not_lt.mpr hx]
      · split <;> simp
    · simp only
      split
      · unfold addLocked
        rw [if_neg hk]
        rcases Nat.lt_or_ge s.nextIndexFree s.buff.length with hx | hx
        · simp [hx]
        · simp [Nat.not_lt.mpr hx]
      · simp

/-- C9 witness: the fault at capacity 1, its absence at capacity 2. -/
theorem c9_div_by_zero_witness :
    (add (mkInit 1) (msgP 0) false false).1 = AddResult.divByZero ∧
    (add (mkInit 2) (msgP 0) false false).1 ≠ AddResult.divByZero :=
  ⟨c9_div_by_zero_iff_capacity_one.1 (msgP 0) false false,
   c9_div_by_zero_iff_capacity_one.2 2 (mkInit 2) (msgP 0) false false (by norm_num)
     (by norm_num [w]) Reachable.init⟩

/-- C10: the `OnAck` hook fires exactly once per `Ack` call whenever it
is configured, before the lock and before any validation, so also on the
calls that return an error; the returned result does not depend on the
hook. -/
theorem c10_onack_fires_every_call (s : AckState) (seq : Nat) (cfg : Bool) :
    (ackCall s seq cfg).2 = (if cfg then 1 else 0) ∧
    (ackCall s seq cfg).1 = ackLocked s seq :=
  ⟨rfl, rfl⟩

end USP
